import Mathlib

/-!
Shallow embedding of the `api-store` order fulfillment core
(`backend/src/services/order.service.js`, `backend/src/routes/admin/dashboard.js`
license-key routes, `backend/src/services/inventory/notification services`,
`backend/src/utils/encryption.js`).

Database tables are lists of records; Prisma transactions are modelled as
pure functions returning `Except`: an `.error` result means the transaction
aborted and nothing was committed, an `.ok` result carries the committed
post-state.  Timestamps are `Nat` seconds supplied by the caller (`new Date()`
becomes a `now` parameter), money amounts are `Rat` (the JS code compares
`parseFloat` values against a 0.01 epsilon).
-/

namespace ApiStore

/-- LicenseKey.status column: 'available' | 'sold' | 'revoked'. -/
inductive KeyStatus
| available
| sold
| revoked
deriving DecidableEq

/-- Order.status column, mirroring the `OrderStatus` enum of
`order.service.js`: pending / paid / completed / cancelled / refunded. -/
inductive OrdStatus
| pending
| paid
| completed
| cancelled
| refunded
deriving DecidableEq

/-- One LicenseKey row.  `keyValueEncrypted` is stored as the raw string the
code wrote into the column (the bulk-import route writes the incoming string
verbatim). `createdAt` is the import timestamp used by the FIFO `orderBy`. -/
structure LicenseKey where
  id : Nat
  productId : Nat
  keyValueEncrypted : String
  status : KeyStatus
  orderId : Option Nat
  soldAt : Option Nat
  revokedAt : Option Nat
  revokeReason : Option String
  createdAt : Nat
deriving DecidableEq

/-- One OrderItem row (the fields the fulfillment code reads). -/
structure OrderItem where
  id : Nat
  productId : Nat
  productName : String
  quantity : Nat
deriving DecidableEq

/-- One Order row, with its order items inlined (the service always loads
orders together with their items and never mutates items). -/
structure Order where
  id : Nat
  orderNo : String
  email : String
  totalAmount : Rat
  status : OrdStatus
  transactionId : Option String
  paidAt : Option Nat
  orderItems : List OrderItem
deriving DecidableEq

/-- One Product row (id, name, status 'active'/'inactive' as a Bool). -/
structure Product where
  id : Nat
  name : String
  active : Bool
deriving DecidableEq

/-- The persisted state touched by the fulfillment core. -/
structure DB where
  products : List Product
  orders : List Order
  keys : List LicenseKey
deriving DecidableEq

/-- Error taxonomy of the service layer (`errorHandler.js` classes used by
the order service and admin routes). -/
inductive SvcError
| notFound (msg : String)
| badRequest (msg : String)
| appError (msg : String)
deriving DecidableEq

/-- Observable side effects of one callback transaction, in program order:
the email attempt inside `_completeOrder` and the transaction commit. -/
inductive Event
| emailAttempt (ok : Bool)
| commitTx
deriving DecidableEq

/-- Result object `{ success, message }` returned by the callback handler. -/
structure CbResult where
  success : Bool
  message : String
deriving DecidableEq

/-- Payload of `handlePaymentCallback`. -/
structure Callback where
  orderNo : String
  transactionId : String
  status : String
  amount : Rat

instance {ε α : Type} [DecidableEq ε] [DecidableEq α] :
    DecidableEq (Except ε α) := fun a b =>
  match a, b with
  | Except.ok x, Except.ok y =>
    if h : x = y then isTrue (by rw [h]) else
      isFalse (fun hc => h (Except.ok.inj hc))
  | Except.error x, Except.error y =>
    if h : x = y then isTrue (by rw [h]) else
      isFalse (fun hc => h (Except.error.inj hc))
  | Except.ok _, Except.error _ => isFalse (fun hc => Except.noConfusion hc)
  | Except.error _, Except.ok _ => isFalse (fun hc => Except.noConfusion hc)

/-- The amount tolerance check `Math.abs(orderAmount - amount) > 0.01` of
the callback handler, written as the equivalent exact cross-multiplied
integer comparison (|x - y| > 1/100 iff 100*|x.num*y.den - y.num*x.den| >
x.den*y.den); `amountMismatch_iff` below proves the equivalence. -/
def amountMismatch (x y : Rat) : Bool :=
  decide (x.den * y.den <
    100 * (x.num * (y.den : Int) - y.num * (x.den : Int)).natAbs)

/-- `tx.order.findUnique({ where: { orderNo } })`. -/
def findOrder (db : DB) (orderNo : String) : Option Order :=
  db.orders.find? fun o => o.orderNo == orderNo

/-- Comparison used by `orderBy: { createdAt: 'asc' }`. -/
def byCreatedAt (a b : LicenseKey) : Prop :=
  a.createdAt ≤ b.createdAt

instance : DecidableRel byCreatedAt := fun a b =>
  inferInstanceAs (Decidable (a.createdAt ≤ b.createdAt))

instance : IsTotal LicenseKey byCreatedAt :=
  ⟨fun a b => Nat.le_total a.createdAt b.createdAt⟩

instance : IsTrans LicenseKey byCreatedAt :=
  ⟨fun _ _ _ h h' => Nat.le_trans h h'⟩

/-- The `findMany` of `_completeOrder`: rows with the item's productId and
status 'available', ordered by createdAt ascending, first `quantity` rows.
The SQL `ORDER BY createdAt ASC` leaves the relative order of equal
timestamps unconstrained; the embedding realizes it as a stable sort over
the table's row order. -/
def selectKeys (keys : List LicenseKey) (productId quantity : Nat) :
    List LicenseKey :=
  ((keys.filter fun k => k.productId == productId
      && k.status == KeyStatus.available).insertionSort byCreatedAt).take
    quantity

/-- The batched `licenseKey.updateMany` of `_completeOrder`: its `where`
clause is only `id: { in: keyIds }` (no status condition), and it sets
status 'sold', orderId and soldAt on every matching row. -/
def markSold (keys : List LicenseKey) (ids : List Nat) (orderId now : Nat) :
    List LicenseKey :=
  keys.map fun k =>
    if ids.contains k.id then
      { k with status := KeyStatus.sold, orderId := some orderId,
               soldAt := some now }
    else k

/-- Modelled from the spec (§4.3 concurrency contract), for comparison with
`markSold`: an update whose predicate is `id IN (ids) AND
status='available'`. -/
def markSoldGuarded (keys : List LicenseKey) (ids : List Nat)
    (orderId now : Nat) : List LicenseKey :=
  keys.map fun k =>
    if ids.contains k.id && k.status == KeyStatus.available then
      { k with status := KeyStatus.sold, orderId := some orderId,
               soldAt := some now }
    else k

/-- The error message of the insufficiency abort. -/
def insufficientMsg (item : OrderItem) (found : Nat) : String :=
  "Insufficient license keys for product " ++ item.productName
    ++ ". Required: " ++ toString item.quantity
    ++ ", Available: " ++ toString found

/-- The per-item allocation loop of `_completeOrder`: select available keys,
abort the transaction when fewer than `quantity` are found, otherwise mark
the selected ids sold and continue with the next item. -/
def allocItems (keys : List LicenseKey) (items : List OrderItem)
    (orderId now : Nat) : Except SvcError (List LicenseKey) :=
  match items with
  | [] => Except.ok keys
  | item :: rest =>
    let sel := selectKeys keys item.productId item.quantity
    if sel.length < item.quantity then
      Except.error (SvcError.badRequest (insufficientMsg item sel.length))
    else
      allocItems (markSold keys (sel.map fun k => k.id) orderId now) rest
        orderId now

/-- `_completeOrder`: allocate keys for every item, set the order to
'completed' with transactionId and paidAt, then attempt the confirmation
email inside the same transaction; the email attempt's failure is caught
and swallowed, so only the attempt itself is recorded as an event. -/
def completeOrder (db : DB) (order : Order) (transactionId : String)
    (now : Nat) (emailOk : Bool) : Except SvcError (DB × List Event) :=
  match allocItems db.keys order.orderItems order.id now with
  | Except.error e => Except.error e
  | Except.ok keys2 =>
    let orders2 := db.orders.map fun o =>
      if o.id == order.id then
        { o with status := OrdStatus.completed,
                 transactionId := some transactionId, paidAt := some now }
      else o
    Except.ok (⟨db.products, orders2, keys2⟩, [Event.emailAttempt emailOk])

/-- `handlePaymentCallback`: one transaction that loads the order by
orderNo, returns success('Order already processed') when the status is not
'pending', rejects amount mismatches beyond 0.01, completes the order on
gateway status 'success' and cancels it otherwise.  A `commitTx` event is
appended when the transaction body returns normally and commits writes. -/
def handlePaymentCallback (db : DB) (cb : Callback) (now : Nat)
    (emailOk : Bool) : Except SvcError (DB × CbResult × List Event) :=
  match findOrder db cb.orderNo with
  | none => Except.error (SvcError.notFound
      ("Order " ++ cb.orderNo ++ " not found"))
  | some order =>
    if order.status ≠ OrdStatus.pending then
      Except.ok (db, ⟨true, "Order already processed"⟩, [])
    else if amountMismatch order.totalAmount cb.amount then
      Except.error (SvcError.badRequest "Payment amount mismatch")
    else if cb.status == "success" then
      match completeOrder db order cb.transactionId now emailOk with
      | Except.error e => Except.error e
      | Except.ok (db2, evs) =>
        Except.ok (db2, ⟨true, "Order completed"⟩, evs ++ [Event.commitTx])
    else
      let orders2 := db.orders.map fun o =>
        if o.id == order.id then
          { o with status := OrdStatus.cancelled,
                   transactionId := some cb.transactionId,
                   paidAt := some now }
        else o
      Except.ok (⟨db.products, orders2, db.keys⟩, ⟨false, "Payment failed"⟩,
        [Event.commitTx])

/-- Transaction semantics at the call site: an aborted transaction leaves
the database exactly as it was. -/
def runCallback (db : DB) (cb : Callback) (now : Nat) (emailOk : Bool) :
    DB :=
  match handlePaymentCallback db cb now emailOk with
  | Except.ok (db2, _, _) => db2
  | Except.error _ => db

/-- Keys of the database linked to an order: allocation stamps the order id
onto the sold rows, and the refund path collects exactly the keys reachable
from the order's items. -/
def orderKeys (db : DB) (orderId : Nat) : List LicenseKey :=
  db.keys.filter fun k => k.orderId == some orderId

/-- `refundOrder`: one transaction that loads the order with its keys,
rejects any status other than completed/paid, resolves the refund amount
(`refundAmount || totalAmount`, so a zero or absent amount means a full
refund), rejects amounts above the order total, calls the gateway refund
(modelled as the boolean `gatewayOk`; a failure aborts with no local
change), and on gateway success releases every linked key (status
'available', orderId and soldAt cleared — the `updateMany` has no status
condition) and sets the order to 'refunded'. -/
def resolvedRefund (refundAmount : Option Rat) (total : Rat) : Rat :=
  match refundAmount with
  | some r => if r == 0 then total else r
  | none => total

/-- `refundOrder`; `resolvedRefund` is the `refundAmount || totalAmount`
step of the source (JS `||` treats an absent or zero amount as a full
refund). -/
def refundOrder (db : DB) (orderNo : String) (refundAmount : Option Rat)
    (gatewayOk : Bool) : Except SvcError DB :=
  match findOrder db orderNo with
  | none => Except.error (SvcError.notFound "Order not found")
  | some order =>
    if order.status ≠ OrdStatus.completed ∧ order.status ≠ OrdStatus.paid
    then
      Except.error (SvcError.badRequest "Cannot refund order with this status")
    else
      let actual := resolvedRefund refundAmount order.totalAmount
      if actual > order.totalAmount then
        Except.error (SvcError.badRequest "Refund amount exceeds order total")
      else if ¬ gatewayOk then
        Except.error (SvcError.appError "Refund failed")
      else
        let ids := (orderKeys db order.id).map fun k => k.id
        let keys2 := db.keys.map fun k =>
          if ids.contains k.id then
            { k with status := KeyStatus.available, orderId := none,
                     soldAt := none }
          else k
        let orders2 := db.orders.map fun o =>
          if o.id == order.id then { o with status := OrdStatus.refunded }
          else o
        Except.ok ⟨db.products, orders2, keys2⟩

/-- Transaction semantics at the refund call site: an aborted refund
transaction leaves the database unchanged. -/
def runRefund (db : DB) (orderNo : String) (refundAmount : Option Rat)
    (gatewayOk : Bool) : DB :=
  match refundOrder db orderNo refundAmount gatewayOk with
  | Except.ok db2 => db2
  | Except.error _ => db

/-- The admin `PATCH /license-keys/:id/revoke` handler: 404 when the key is
missing, 400 when already revoked, otherwise set status 'revoked' with
revokedAt and the optional reason.  It does not clear orderId or soldAt. -/
def revokeKey (db : DB) (keyId : Nat) (reason : Option String) (now : Nat) :
    Except SvcError DB :=
  match db.keys.find? (fun k => k.id == keyId) with
  | none => Except.error (SvcError.notFound "License key not found")
  | some k =>
    if k.status == KeyStatus.revoked then
      Except.error (SvcError.badRequest "License key is already revoked")
    else
      Except.ok { db with keys := db.keys.map fun k2 =>
        if k2.id == keyId then
          { k2 with status := KeyStatus.revoked, revokedAt := some now,
                    revokeReason := reason }
        else k2 }

/-- The whitespace test of `String.trim` (space, tab, newline, carriage
return), written over the character list so that it evaluates. -/
def isWsp (c : Char) : Bool :=
  c == ' ' || c == '\t' || c == '\n' || c == '\r'

/-- `k.trim()`: strip leading and trailing whitespace. -/
def trimStr (s : String) : String :=
  ⟨((s.data.dropWhile isWsp).reverse.dropWhile isWsp).reverse⟩

/-- `[...new Set(xs)]`: deduplicate keeping the first occurrence order. -/
def dedupFirst (seen : List String) : List String → List String
  | [] => []
  | x :: xs =>
    if seen.contains x then dedupFirst seen xs
    else x :: dedupFirst (x :: seen) xs

/-- The admin `POST /license-keys/bulk-import` handler body after the
product check: trim and deduplicate the incoming strings, drop empties,
compare them against the stored `keyValueEncrypted` column of the product
(the incoming plaintext is compared against the stored value directly),
and create one 'available' row per new string, storing the incoming string
verbatim in `keyValueEncrypted` — no call to `encrypt` happens anywhere in
this handler.  `firstNewId` supplies the autoincrement ids. -/
def bulkImport (db : DB) (productId : Nat) (rawKeys : List String)
    (firstNewId now : Nat) : Except SvcError (DB × Nat) :=
  let uniqueKeys := (dedupFirst [] (rawKeys.map trimStr)).filter
    fun k => k.length > 0
  if uniqueKeys.isEmpty then
    Except.error (SvcError.badRequest "No valid keys provided")
  else
    let existingVals := (db.keys.filter fun k =>
      k.productId == productId
        && uniqueKeys.contains k.keyValueEncrypted).map
      fun k => k.keyValueEncrypted
    let newKeys := uniqueKeys.filter fun k => ¬ existingVals.contains k
    if newKeys.isEmpty then
      Except.error (SvcError.badRequest "All keys already exist in the database")
    else
      let rows := (List.range newKeys.length).zip newKeys |>.map
        fun p =>
          { id := firstNewId + p.1, productId := productId,
            keyValueEncrypted := p.2, status := KeyStatus.available,
            orderId := none, soldAt := none, revokedAt := none,
            revokeReason := none, createdAt := now : LicenseKey }
      Except.ok ({ db with keys := db.keys ++ rows }, newKeys.length)

/-! ### Key Vault (`utils/encryption.js`)

AES-256-GCM via Node `crypto`.  GCM encrypts with AES in counter mode:
ciphertext = plaintext XOR keystream(key, iv), followed by an
authentication tag over the ciphertext.  The embedding keeps the exact
byte-level framing of `encrypt`/`decrypt` — output is iv (16 bytes) ++
ciphertext ++ tag (16 bytes), decrypt re-slices those parts and fails when
the tag does not authenticate — and abstracts the AES keystream and tag
computations (external primitives, fixed process-wide key) as function
parameters `ks` and `tagF`. -/

/-- Byte length of the random iv generated per `encrypt` call. -/
def ivLength : Nat := 16

/-- Byte length of the GCM authentication tag. -/
def tagLength : Nat := 16

/-- Pointwise XOR of two byte strings (CTR-mode combination). -/
def xorBytes (a b : List Nat) : List Nat :=
  List.zipWith (fun x y => x ^^^ y) a b

/-- `encrypt` at byte level: draw an iv (passed in, the code draws it with
`crypto.randomBytes`), XOR the plaintext with the AES-CTR keystream for
that iv, emit iv ++ ciphertext ++ tag.  (The code then base64-encodes this
buffer; base64 is injective, so the byte buffer is the faithful value.) -/
def encryptBytes (ks : List Nat → Nat → List Nat)
    (tagF : List Nat → List Nat → List Nat) (iv pt : List Nat) : List Nat :=
  let ct := xorBytes pt (ks iv pt.length)
  iv ++ ct ++ tagF iv ct

/-- `decrypt` at byte level: split the buffer into iv (first 16 bytes), tag
(last 16 bytes) and ciphertext (the middle); authenticate, then XOR with
the keystream again.  A failed authentication throws in the code, here
`none`. -/
def decryptBytes (ks : List Nat → Nat → List Nat)
    (tagF : List Nat → List Nat → List Nat) (buf : List Nat) :
    Option (List Nat) :=
  let iv := buf.take ivLength
  let ct := (buf.take (buf.length - tagLength)).drop ivLength
  let tag := buf.drop (buf.length - tagLength)
  if tagF iv ct = tag then some (xorBytes ct (ks iv ct.length)) else none

/-- A keystream is well formed when it produces exactly the requested
number of bytes (AES-CTR yields as many bytes as demanded). -/
def WfKeystream (ks : List Nat → Nat → List Nat) : Prop :=
  ∀ iv n, (ks iv n).length = n

/-- A tag function is well formed when it always produces a 16-byte tag. -/
def WfTag (tagF : List Nat → List Nat → List Nat) : Prop :=
  ∀ iv ct, (tagF iv ct).length = tagLength

/-- Byte view of a stored string (the stored plaintexts in this code are
ASCII license strings, one byte per character). -/
def strBytes (s : String) : List Nat :=
  s.data.map Char.toNat

/-! ### Inventory alerting (`inventory service` in notification.service.js)

The Redis cooldown flag `inventory:alert:<productId>` with a 24h TTL is
modelled as a partial map from product id to absolute expiry time;
`redis.exists` is true exactly while `now` is before the expiry. -/

/-- `ALERT_CONFIG.ALERT_COOLDOWN` = 3600 * 24 seconds. -/
def alertCooldown : Nat := 3600 * 24

/-- Redis state for the cooldown flags: product id ↦ expiry instant. -/
def AlertState := Nat → Option Nat

/-- `_hasRecentAlert`: the Redis key exists iff it was set and its TTL has
not yet elapsed. -/
def hasRecentAlert (st : AlertState) (now pid : Nat) : Bool :=
  match st pid with
  | some expiry => decide (now < expiry)
  | none => false

/-- `_markAlertSent`: `setex` with the cooldown TTL. -/
def markAlertSent (st : AlertState) (now pid : Nat) : AlertState :=
  fun q => if q = pid then some (now + alertCooldown) else st q

/-- Count of 'available' keys of a product (the stock number the inventory
service reads through `_count`). -/
def availableCount (keys : List LicenseKey) (pid : Nat) : Nat :=
  (keys.filter fun k =>
    k.productId == pid && k.status == KeyStatus.available).length

/-- `getLowStockProducts`: active products whose available stock is at or
below the threshold. -/
def lowStockProducts (db : DB) (threshold : Nat) : List Product :=
  (db.products.filter fun p => p.active).filter
    fun p => availableCount db.keys p.id ≤ threshold

/-- The per-product loop of `checkAndAlert`: skip products in cooldown,
try to send for the rest (`sendOk` abstracts the notification channels),
and set the cooldown only when a send succeeded.  Returns the new Redis
state and the ids alerted, in order. -/
def alertLoop (st : AlertState) (now : Nat) (sendOk : Nat → Bool) :
    List Product → AlertState × List Nat
  | [] => (st, [])
  | p :: rest =>
    if hasRecentAlert st now p.id then alertLoop st now sendOk rest
    else if sendOk p.id then
      let r := alertLoop (markAlertSent st now p.id) now sendOk rest
      (r.1, p.id :: r.2)
    else alertLoop st now sendOk rest

/-- `checkAndAlert` with cooldown control; `alertsSent` in the code is the
length of the returned alert list. -/
def checkAndAlert (db : DB) (st : AlertState) (now : Nat)
    (sendOk : Nat → Bool) (threshold : Nat) : AlertState × List Nat :=
  alertLoop st now sendOk (lowStockProducts db threshold)

/-- Modelled from the spec (§4.3: "ordered by creation time ascending
(FIFO, deterministic tie-break on id)"), for comparison with `selectKeys`:
selection by the lexicographic order (createdAt, id). -/
def byCreatedAtThenId (a b : LicenseKey) : Prop :=
  a.createdAt < b.createdAt ∨ (a.createdAt = b.createdAt ∧ a.id ≤ b.id)

instance : DecidableRel byCreatedAtThenId := fun _ _ =>
  inferInstanceAs (Decidable (_ ∨ _))

/-- Modelled from the spec: the selection `selectKeys` would perform if the
code ordered by createdAt ascending with an id tie-break. -/
def specSelectKeys (keys : List LicenseKey) (productId quantity : Nat) :
    List LicenseKey :=
  ((keys.filter fun k => k.productId == productId
      && k.status == KeyStatus.available).insertionSort
    byCreatedAtThenId).take quantity

/-! ### Helper lemmas -/

/-- `find?` by orderNo commutes with a row update that preserves orderNo. -/
theorem find?_orderNo_map (l : List Order) (n : String) (g : Order → Order)
    (h : ∀ o, (g o).orderNo = o.orderNo) :
    (l.map g).find? (fun o => o.orderNo == n) =
      (l.find? (fun o => o.orderNo == n)).map g := by
  induction l with
  | nil => rfl
  | cons o l ih =>
    simp only [List.map_cons, List.find?_cons]
    rw [h o]
    by_cases hb : o.orderNo == n
    · simp [hb]
    · simp only [hb, cond_false]
      exact ih

theorem length_markSold (keys : List LicenseKey) (ids : List Nat)
    (oid now : Nat) : (markSold keys ids oid now).length = keys.length := by
  simp [markSold]

/-- Marking keys sold never increases the available stock of any product. -/
theorem availableCount_markSold_le (keys : List LicenseKey) (ids : List Nat)
    (oid now pid : Nat) :
    availableCount (markSold keys ids oid now) pid ≤
      availableCount keys pid := by
  induction keys with
  | nil => simp [markSold, availableCount]
  | cons k ks ih =>
    simp only [markSold, List.map_cons, availableCount, List.filter_cons]
      at ih ⊢
    by_cases hc : ids.contains k.id
    · simp only [hc, if_pos]
      split
      · next hsold =>
        simp at hsold
      · split
        · simpa using Nat.le_succ_of_le (by simpa [markSold, availableCount]
            using ih)
        · simpa [markSold, availableCount] using ih
    · simp only [hc, if_neg, Bool.false_eq_true, not_false_iff, ite_false]
      split
      · simpa [markSold, availableCount] using ih
      · simpa [markSold, availableCount] using ih

theorem length_selectKeys (keys : List LicenseKey) (pid q : Nat) :
    (selectKeys keys pid q).length = min q (availableCount keys pid) := by
  simp [selectKeys, availableCount, List.length_take,
    (List.perm_insertionSort byCreatedAt _).length_eq]

/-- If some order item lacks stock at its selection time, the allocation
loop aborts with the insufficiency error. -/
theorem allocItems_error_of_insufficient :
    ∀ (items : List OrderItem) (keys : List LicenseKey) (oid now : Nat),
    (∃ item ∈ items, availableCount keys item.productId < item.quantity) →
    ∃ msg, allocItems keys items oid now =
      Except.error (SvcError.badRequest msg) := by
  intro items
  induction items with
  | nil =>
    rintro keys oid now ⟨item, hmem, _⟩
    cases hmem
  | cons item rest ih =>
    rintro keys oid now ⟨w, hmem, hlt⟩
    by_cases hsel :
        (selectKeys keys item.productId item.quantity).length < item.quantity
    · exact ⟨insufficientMsg item
        (selectKeys keys item.productId item.quantity).length,
        by simp [allocItems, hsel]⟩
    · have hw : w ∈ rest := by
        rcases List.mem_cons.mp hmem with h | h
        · subst h
          rw [length_selectKeys] at hsel
          omega
        · exact h
      have hlt2 : availableCount
          (markSold keys
            ((selectKeys keys item.productId item.quantity).map fun k => k.id)
            oid now) w.productId < w.quantity :=
        lt_of_le_of_lt (availableCount_markSold_le _ _ _ _ _) hlt
      obtain ⟨msg, hmsg⟩ := ih _ oid now ⟨w, hw, hlt2⟩
      exact ⟨msg, by simp [allocItems, hsel, hmsg]⟩

/-- `amountMismatch` is exactly the source's `Math.abs(orderAmount -
amount) > 0.01` comparison. -/
theorem amountMismatch_iff (x y : Rat) :
    amountMismatch x y = true ↔ (1 : Rat) / 100 < |x - y| := by
  rw [amountMismatch, decide_eq_true_iff]
  have hxd : ((x.den : Rat)) ≠ 0 := by
    exact_mod_cast x.den_nz
  have hyd : ((y.den : Rat)) ≠ 0 := by
    exact_mod_cast y.den_nz
  have hxdpos : (0 : Rat) < (x.den : Rat) := by
    exact_mod_cast x.pos
  have hydpos : (0 : Rat) < (y.den : Rat) := by
    exact_mod_cast y.pos
  have hsub : x - y =
      ((x.num * (y.den : Int) - y.num * (x.den : Int) : Int) : Rat) /
        (((x.den * y.den : Nat) : Rat)) := by
    rw [eq_div_iff (by positivity)]
    push_cast
    rw [sub_mul]
    nth_rewrite 1 [← Rat.num_div_den x]
    nth_rewrite 2 [← Rat.num_div_den y]
    field_simp
    ring
  rw [hsub, abs_div, abs_of_pos (by positivity :
    (0 : Rat) < (((x.den * y.den : Nat) : Rat)))]
  rw [div_lt_div_iff₀ (by norm_num) (by positivity)]
  constructor
  · intro h
    have hq : ((x.den * y.den : Nat) : Rat) <
        ((100 * (x.num * (y.den : Int) - y.num * (x.den : Int)).natAbs :
          Nat) : Rat) := by
      exact_mod_cast h
    push_cast [Int.cast_natAbs] at hq ⊢
    linarith
  · intro h
    have hq : ((x.den * y.den : Nat) : Rat) <
        ((100 * (x.num * (y.den : Int) - y.num * (x.den : Int)).natAbs :
          Nat) : Rat) := by
      push_cast [Int.cast_natAbs] at h ⊢
      linarith
    exact_mod_cast hq

/-- Reduction of the callback handler on the success path. -/
theorem handle_success_eq (db : DB) (cb : Callback) (now : Nat)
    (emailOk : Bool) (order : Order)
    (hf : findOrder db cb.orderNo = some order)
    (hp : order.status = OrdStatus.pending)
    (ha : amountMismatch order.totalAmount cb.amount = false)
    (hs : cb.status = "success") :
    handlePaymentCallback db cb now emailOk =
      match completeOrder db order cb.transactionId now emailOk with
      | Except.error e => Except.error e
      | Except.ok (db2, evs) =>
        Except.ok (db2, ⟨true, "Order completed"⟩,
          evs ++ [Event.commitTx]) := by
  simp [handlePaymentCallback, hf, hp, ha, hs]

/-! ### Claim C1 -/

/-- C1: `handlePaymentCallback` is idempotent.  For every order whose status
is not 'pending' at the start of the callback transaction, the handler
returns success with message 'Order already processed' and changes no
order, order-item, or license-key state (the returned database is the input
database); consequently, running the handler twice in sequence with an
identical successful payload completes the order exactly once and allocates
exactly one set of keys: the second run leaves the state of the first run
untouched. -/
theorem callback_idempotent :
    (∀ (db : DB) (cb : Callback) (now : Nat) (emailOk : Bool)
      (order : Order),
      findOrder db cb.orderNo = some order →
      order.status ≠ OrdStatus.pending →
      handlePaymentCallback db cb now emailOk =
        Except.ok (db, ⟨true, "Order already processed"⟩, [])) ∧
    (∀ (db : DB) (cb : Callback) (now1 now2 : Nat) (e1 e2 : Bool) (db2 : DB)
      (r : CbResult) (evs : List Event),
      handlePaymentCallback db cb now1 e1 = Except.ok (db2, r, evs) →
      r.message = "Order completed" →
      handlePaymentCallback db2 cb now2 e2 =
        Except.ok (db2, ⟨true, "Order already processed"⟩, [])) := by
  constructor
  · intro db cb now emailOk order hf hne
    simp [handlePaymentCallback, hf, hne]
  · intro db cb now1 now2 e1 e2 db2 r evs h hm
    cases hf : findOrder db cb.orderNo with
    | none => simp [handlePaymentCallback, hf] at h
    | some order =>
      by_cases hne : order.status ≠ OrdStatus.pending
      · simp [handlePaymentCallback, hf, hne] at h
        obtain ⟨hdb, hr, hevs⟩ := h
        subst hr
        exact absurd hm (by decide)
      · rw [not_not] at hne
        cases hamt : amountMismatch order.totalAmount cb.amount with
        | true => simp [handlePaymentCallback, hf, hne, hamt] at h
        | false =>
          by_cases hs : cb.status = "success"
          · rw [handle_success_eq db cb now1 e1 order hf hne hamt hs] at h
            cases hc : allocItems db.keys order.orderItems order.id now1 with
            | error e => simp [completeOrder, hc] at h
            | ok keys2 =>
              simp only [completeOrder, hc, Except.ok.injEq, Prod.mk.injEq]
                at h
              obtain ⟨hdb, hr, hevs⟩ := h
              subst hr
              set g : Order → Order := fun o =>
                if o.id == order.id then
                  { o with status := OrdStatus.completed,
                           transactionId := some cb.transactionId,
                           paidAt := some now1 }
                else o with hg
              have hgNo : ∀ o : Order, (g o).orderNo = o.orderNo := by
                intro o
                by_cases hid : o.id = order.id <;> simp [hg, hid]
              have hf2 : findOrder db2 cb.orderNo = some (g order) := by
                rw [← hdb]
                simp only [findOrder]
                rw [find?_orderNo_map _ _ g hgNo]
                simp only [findOrder] at hf
                rw [hf]
                rfl
              have hst : (g order).status ≠ OrdStatus.pending := by
                simp [hg]
              simp [handlePaymentCallback, hf2, hst]
          · simp [handlePaymentCallback, hf, hne, hamt, hs] at h
            obtain ⟨hdb, hr, hevs⟩ := h
            subst hr
            exact absurd hm (by decide)

/-- Concrete scenario shared by several witnesses: one active product with
one available key and one pending single-item order over it. -/
def wOrder : Order :=
  ⟨1, "ORD1", "buyer@example.com", 10, OrdStatus.pending, none, none,
    [⟨1, 1, "W11", 1⟩]⟩

def wKey : LicenseKey :=
  ⟨1, 1, "CIPHER-1", KeyStatus.available, none, none, none, none, 0⟩

def wDB : DB := ⟨[⟨1, "W11", true⟩], [wOrder], [wKey]⟩

def wCb : Callback := ⟨"ORD1", "TX1", "success", 10⟩

/-- The state after the first successful callback run on `wDB`. -/
def wDB1 : DB := runCallback wDB wCb 7 true

/-- Witness for C1: on the concrete scenario, the second delivery of the
same payload is answered 'Order already processed' with the state of the
first run unchanged. -/
theorem callback_idempotent_witness :
    handlePaymentCallback wDB1 wCb 9 true =
      Except.ok (wDB1, ⟨true, "Order already processed"⟩, []) :=
  callback_idempotent.2 wDB wCb 7 9 true true wDB1
    ⟨true, "Order completed"⟩ [Event.emailAttempt true, Event.commitTx]
    (by decide) rfl

/-! ### Claim C3 -/

/-- C3: for every order item whose product has fewer than `quantity`
available keys at selection time, the entire callback/allocation
transaction aborts with the insufficiency error (a `BadRequestError`,
the model's `InsufficientInventory`), the order remains 'pending' and no
key changes status: the committed state equals the initial state. -/
theorem insufficiency_aborts :
    ∀ (db : DB) (cb : Callback) (now : Nat) (emailOk : Bool) (order : Order)
      (item : OrderItem),
      findOrder db cb.orderNo = some order →
      order.status = OrdStatus.pending →
      amountMismatch order.totalAmount cb.amount = false →
      cb.status = "success" →
      item ∈ order.orderItems →
      availableCount db.keys item.productId < item.quantity →
      (∃ msg, handlePaymentCallback db cb now emailOk =
        Except.error (SvcError.badRequest msg)) ∧
      runCallback db cb now emailOk = db := by
  intro db cb now emailOk order item hf hp ha hs hmem hlt
  obtain ⟨msg, hmsg⟩ := allocItems_error_of_insufficient order.orderItems
    db.keys order.id now ⟨item, hmem, hlt⟩
  have hrun : handlePaymentCallback db cb now emailOk =
      Except.error (SvcError.badRequest msg) := by
    rw [handle_success_eq db cb now emailOk order hf hp ha hs]
    simp [completeOrder, hmsg]
  exact ⟨⟨msg, hrun⟩, by simp [runCallback, hrun]⟩

/-- Scenario for the C3 witness: a pending order demanding three keys of a
product that has a single available key. -/
def w3Order : Order :=
  ⟨1, "ORD3", "buyer@example.com", 10, OrdStatus.pending, none, none,
    [⟨1, 1, "W11", 3⟩]⟩

def w3DB : DB := ⟨[⟨1, "W11", true⟩], [w3Order], [wKey]⟩

def w3Cb : Callback := ⟨"ORD3", "TX3", "success", 10⟩

/-- Witness for C3: the concrete under-stocked callback aborts and commits
nothing. -/
theorem insufficiency_aborts_witness :
    (∃ msg, handlePaymentCallback w3DB w3Cb 7 true =
      Except.error (SvcError.badRequest msg)) ∧
    runCallback w3DB w3Cb 7 true = w3DB :=
  insufficiency_aborts w3DB w3Cb 7 true w3Order ⟨1, 1, "W11", 3⟩
    (by decide) rfl (by decide) rfl (by decide) (by decide)

/-! ### Claim C2 -/

/-- Membership in the selected keys implies availability in the snapshot. -/
theorem mem_selectKeys (keys : List LicenseKey) (pid q : Nat)
    (k : LicenseKey) (hk : k ∈ selectKeys keys pid q) :
    k ∈ keys ∧ k.productId = pid ∧ k.status = KeyStatus.available := by
  have h1 : k ∈ (keys.filter fun k => k.productId == pid
      && k.status == KeyStatus.available).insertionSort byCreatedAt :=
    List.take_subset _ _ hk
  have h2 : k ∈ keys.filter fun k => k.productId == pid
      && k.status == KeyStatus.available :=
    ((List.perm_insertionSort byCreatedAt _).mem_iff).mp h1
  have h3 := List.mem_filter.mp h2
  refine ⟨h3.1, ?_, ?_⟩
  · have := h3.2
    simp at this
    exact this.1
  · have := h3.2
    simp at this
    exact this.2

/-- `markSold` touches no row's id column. -/
theorem map_id_markSold (keys : List LicenseKey) (ids : List Nat)
    (oid now : Nat) :
    (markSold keys ids oid now).map (fun k => k.id) =
      keys.map (fun k => k.id) := by
  rw [markSold, List.map_map]
  apply List.map_congr_left
  intro k _
  simp only [Function.comp_apply]
  split <;> rfl

/-- In a table whose id column is duplicate-free, a row with the same id as
the row at position `i` is the row at position `i`. -/
theorem eq_get_of_id_eq (keys : List LicenseKey)
    (hnd : (keys.map (fun k => k.id)).Nodup) (k : LicenseKey) (hk : k ∈ keys)
    (i : Nat) (hi : i < keys.length)
    (hid : k.id = (keys.get ⟨i, hi⟩).id) : k = keys.get ⟨i, hi⟩ := by
  obtain ⟨j, hj⟩ := List.mem_iff_get.mp hk
  subst hj
  have hji : (keys.map (fun k => k.id)).get ⟨j.1, by simp [j.2]⟩ =
      (keys.map (fun k => k.id)).get ⟨i, by simp [hi]⟩ := by
    simp only [List.get_eq_getElem, List.getElem_map]
    exact hid
  have := (List.Nodup.get_inj_iff hnd).mp hji
  have hj_eq : j.1 = i := congrArg Fin.val this
  congr 1
  exact Fin.ext hj_eq

/-- C2 counterexample: the batched mark-sold write of `_completeOrder`
(`markSold`, predicate `id IN ids` only) differs from the update the claim
describes (`markSoldGuarded`, predicate `id IN ids AND status='available'`)
on a table holding a sold row whose id is listed: the code's update
overwrites the sold row, the claimed update leaves it alone. -/
theorem updateMany_lacks_status_guard :
    markSold [⟨1, 1, "CIPHER-S", KeyStatus.sold, some 7, some 3, none, none,
      0⟩] [1] 9 11 ≠
    markSoldGuarded [⟨1, 1, "CIPHER-S", KeyStatus.sold, some 7, some 3,
      none, none, 0⟩] [1] 9 11 := by decide

/-- Row `i` of the mark-sold write, as a function of row `i` of the input.
-/
theorem markSold_get (keys : List LicenseKey) (ids : List Nat)
    (oid now : Nat) (i : Nat) (h1 : i < keys.length)
    (h2 : i < (markSold keys ids oid now).length) :
    (markSold keys ids oid now).get ⟨i, h2⟩ =
      if ids.contains (keys.get ⟨i, h1⟩).id then
        { (keys.get ⟨i, h1⟩) with
            status := KeyStatus.sold,
            orderId := some oid,
            soldAt := some now }
      else keys.get ⟨i, h1⟩ := by
  simp [markSold]

/-- C2 amended: the mark-sold write filters only on id and verifies no
affected-row count, but because selection and update run in the same
atomic transaction, every row the allocation changes was 'available' at
its selection time and ends 'sold' and linked to the order (ids assumed
unique, as the database's primary key guarantees). -/
theorem alloc_marks_only_available :
    ∀ (items : List OrderItem) (keys keys2 : List LicenseKey)
      (oid now : Nat),
      (keys.map (fun k => k.id)).Nodup →
      allocItems keys items oid now = Except.ok keys2 →
      keys2.length = keys.length ∧
      ∀ i (h1 : i < keys.length) (h2 : i < keys2.length),
        keys2.get ⟨i, h2⟩ ≠ keys.get ⟨i, h1⟩ →
        (keys.get ⟨i, h1⟩).status = KeyStatus.available ∧
        (keys2.get ⟨i, h2⟩).status = KeyStatus.sold ∧
        (keys2.get ⟨i, h2⟩).orderId = some oid := by
  intro items
  induction items with
  | nil =>
    intro keys keys2 oid now hnd h
    simp [allocItems] at h
    subst h
    exact ⟨rfl, fun i h1 h2 hne => absurd rfl hne⟩
  | cons item rest ih =>
    intro keys keys2 oid now hnd h
    by_cases hsel :
        (selectKeys keys item.productId item.quantity).length < item.quantity
    · simp [allocItems, hsel] at h
    · simp only [allocItems, hsel, if_false, ite_false] at h
      have hnd2 : ((markSold keys
          ((selectKeys keys item.productId item.quantity).map fun k => k.id)
          oid now).map (fun k => k.id)).Nodup := by
        rw [map_id_markSold]
        exact hnd
      obtain ⟨hlen, hprop⟩ := ih _ keys2 oid now hnd2 h
      have hlenmk : (markSold keys
          ((selectKeys keys item.productId item.quantity).map fun k => k.id)
          oid now).length = keys.length :=
        length_markSold _ _ _ _
      refine ⟨hlen.trans hlenmk, ?_⟩
      intro i h1 h2 hne
      have hmi : i < (markSold keys
          ((selectKeys keys item.productId item.quantity).map fun k => k.id)
          oid now).length := by omega
      have hstep := markSold_get keys
        ((selectKeys keys item.productId item.quantity).map fun k => k.id)
        oid now i h1 hmi
      by_cases hc : ((selectKeys keys item.productId item.quantity).map
          fun k => k.id).contains (keys.get ⟨i, h1⟩).id
      · have hmem : (keys.get ⟨i, h1⟩).id ∈
            (selectKeys keys item.productId item.quantity).map
              fun k => k.id := by
          simpa using hc
        obtain ⟨k, hksel, hkid⟩ := List.mem_map.mp hmem
        obtain ⟨hkmem, _, hkav⟩ :=
          mem_selectKeys keys item.productId item.quantity k hksel
        have hkeq : k = keys.get ⟨i, h1⟩ :=
          eq_get_of_id_eq keys hnd k hkmem i h1 hkid
        have havail : (keys.get ⟨i, h1⟩).status = KeyStatus.available := by
          rw [← hkeq]
          exact hkav
        rw [if_pos hc] at hstep
        by_cases hfin : keys2.get ⟨i, h2⟩ = (markSold keys
            ((selectKeys keys item.productId item.quantity).map
              fun k => k.id) oid now).get ⟨i, hmi⟩
        · rw [hfin, hstep]
          exact ⟨havail, rfl, rfl⟩
        · obtain ⟨ha2, _, _⟩ := hprop i hmi h2 hfin
          rw [hstep] at ha2
          simp at ha2
      · rw [if_neg hc] at hstep
        have hfin : keys2.get ⟨i, h2⟩ ≠ (markSold keys
            ((selectKeys keys item.productId item.quantity).map
              fun k => k.id) oid now).get ⟨i, hmi⟩ := by
          rw [hstep]
          exact hne
        obtain ⟨ha2, hs2, ho2⟩ := hprop i hmi h2 hfin
        rw [hstep] at ha2
        exact ⟨ha2, hs2, ho2⟩

/-- Witness for the C2 amended theorem on the concrete one-key scenario. -/
theorem alloc_marks_only_available_witness :
    ([⟨1, 1, "CIPHER-1", KeyStatus.sold, some 1, some 7, none, none, 0⟩] :
      List LicenseKey).length = wDB.keys.length :=
  (alloc_marks_only_available [⟨1, 1, "W11", 1⟩] wDB.keys
    [⟨1, 1, "CIPHER-1", KeyStatus.sold, some 1, some 7, none, none, 0⟩]
    1 7 (by decide) (by decide)).1

/-! ### Claim C4 -/

/-- Row `i` of the refund key-release write. -/
theorem releaseKeys_get (keys : List LicenseKey) (ids : List Nat)
    (i : Nat) (h1 : i < keys.length)
    (h2 : i < (keys.map fun k =>
      if ids.contains k.id then
        { k with status := KeyStatus.available, orderId := none,
                 soldAt := none }
      else k).length) :
    (keys.map fun k =>
      if ids.contains k.id then
        { k with status := KeyStatus.available, orderId := none,
                 soldAt := none }
      else k).get ⟨i, h2⟩ =
      if ids.contains (keys.get ⟨i, h1⟩).id then
        { (keys.get ⟨i, h1⟩) with
            status := KeyStatus.available,
            orderId := none,
            soldAt := none }
      else keys.get ⟨i, h1⟩ := by
  simp

/-- C4: `refundOrder` rejects any status outside {paid, completed} with an
error and no state change; with a failing gateway call it never changes
local state (whatever the input); and on gateway success it commits, in one
transaction, a state where every key row linked to the order is back to
'available' with orderId and soldAt cleared, every other key row is
untouched, and the order's status is 'refunded' (key ids assumed unique,
as the primary key guarantees). -/
theorem refund_correct :
    (∀ (db : DB) (orderNo : String) (amt : Option Rat) (gw : Bool)
      (order : Order),
      findOrder db orderNo = some order →
      order.status ≠ OrdStatus.completed →
      order.status ≠ OrdStatus.paid →
      (∃ e, refundOrder db orderNo amt gw = Except.error e) ∧
      runRefund db orderNo amt gw = db) ∧
    (∀ (db : DB) (orderNo : String) (amt : Option Rat),
      (∃ e, refundOrder db orderNo amt false = Except.error e) ∧
      runRefund db orderNo amt false = db) ∧
    (∀ (db : DB) (orderNo : String) (amt : Option Rat) (order : Order),
      findOrder db orderNo = some order →
      (order.status = OrdStatus.completed ∨ order.status = OrdStatus.paid) →
      ¬ resolvedRefund amt order.totalAmount > order.totalAmount →
      (db.keys.map (fun k => k.id)).Nodup →
      ∃ db2, refundOrder db orderNo amt true = Except.ok db2 ∧
        db2.products = db.products ∧
        db2.orders = db.orders.map (fun o =>
          if o.id == order.id then { o with status := OrdStatus.refunded }
          else o) ∧
        db2.keys.length = db.keys.length ∧
        ∀ i (h1 : i < db.keys.length) (h2 : i < db2.keys.length),
          ((db.keys.get ⟨i, h1⟩).orderId = some order.id →
            db2.keys.get ⟨i, h2⟩ =
              { (db.keys.get ⟨i, h1⟩) with
                  status := KeyStatus.available,
                  orderId := none,
                  soldAt := none }) ∧
          ((db.keys.get ⟨i, h1⟩).orderId ≠ some order.id →
            db2.keys.get ⟨i, h2⟩ = db.keys.get ⟨i, h1⟩)) := by
  refine ⟨?_, ?_, ?_⟩
  · intro db orderNo amt gw order hf hc hp
    have hcond : order.status ≠ OrdStatus.completed ∧
        order.status ≠ OrdStatus.paid := ⟨hc, hp⟩
    have herr : refundOrder db orderNo amt gw =
        Except.error (SvcError.badRequest
          "Cannot refund order with this status") := by
      simp [refundOrder, hf, hcond]
    exact ⟨⟨_, herr⟩, by simp [runRefund, herr]⟩
  · intro db orderNo amt
    cases hf : findOrder db orderNo with
    | none =>
      have herr : refundOrder db orderNo amt false =
          Except.error (SvcError.notFound "Order not found") := by
        simp [refundOrder, hf]
      exact ⟨⟨_, herr⟩, by simp [runRefund, herr]⟩
    | some order =>
      by_cases hcond : order.status ≠ OrdStatus.completed ∧
          order.status ≠ OrdStatus.paid
      · have herr : refundOrder db orderNo amt false =
            Except.error (SvcError.badRequest
              "Cannot refund order with this status") := by
          simp [refundOrder, hf, hcond.1, hcond.2]
        exact ⟨⟨_, herr⟩, by simp [runRefund, herr]⟩
      · by_cases hamt :
            resolvedRefund amt order.totalAmount > order.totalAmount
        · have herr : refundOrder db orderNo amt false =
              Except.error (SvcError.badRequest
                "Refund amount exceeds order total") := by
            simp [refundOrder, hf, hcond, hamt]
          exact ⟨⟨_, herr⟩, by simp [runRefund, herr]⟩
        · have herr : refundOrder db orderNo amt false =
              Except.error (SvcError.appError "Refund failed") := by
            simp [refundOrder, hf, hcond, hamt]
          exact ⟨⟨_, herr⟩, by simp [runRefund, herr]⟩
  · intro db orderNo amt order hf hst hamt hnd
    have hcond : ¬ (order.status ≠ OrdStatus.completed ∧
        order.status ≠ OrdStatus.paid) := by
      rcases hst with h | h <;> simp [h]
    have hok : refundOrder db orderNo amt true = Except.ok
        ⟨db.products,
         db.orders.map (fun o =>
           if o.id == order.id then
             { o with status := OrdStatus.refunded }
           else o),
         db.keys.map (fun k =>
           if ((orderKeys db order.id).map fun k => k.id).contains k.id then
             { k with status := KeyStatus.available, orderId := none,
                      soldAt := none }
           else k)⟩ := by
      simp [refundOrder, hf, hcond, hamt]
    refine ⟨_, hok, rfl, rfl, by simp, ?_⟩
    intro i h1 h2
    have hrow := releaseKeys_get db.keys
      ((orderKeys db order.id).map fun k => k.id) i h1 (by simpa using h2)
    constructor
    · intro hlink
      have hc : ((orderKeys db order.id).map fun k => k.id).contains
          (db.keys.get ⟨i, h1⟩).id := by
        have hmem : db.keys.get ⟨i, h1⟩ ∈ orderKeys db order.id := by
          rw [orderKeys]
          refine List.mem_filter.mpr ⟨List.get_mem _ _ _, ?_⟩
          simp only [beq_iff_eq]
          exact hlink
        simp only [List.contains_iff_exists_mem_beq]
        exact ⟨(db.keys.get ⟨i, h1⟩).id,
          List.mem_map.mpr ⟨_, hmem, rfl⟩, by simp⟩
      rw [if_pos hc] at hrow
      exact hrow
    · intro hlink
      have hc : ¬ ((orderKeys db order.id).map fun k => k.id).contains
          (db.keys.get ⟨i, h1⟩).id := by
        intro hcc
        have hmem : (db.keys.get ⟨i, h1⟩).id ∈
            (orderKeys db order.id).map fun k => k.id := by
          simpa using hcc
        obtain ⟨k, hkmem, hkid⟩ := List.mem_map.mp hmem
        have hk2 := List.mem_filter.mp hkmem
        have hkeq : k = db.keys.get ⟨i, h1⟩ :=
          eq_get_of_id_eq db.keys hnd k hk2.1 i h1 hkid
        have : (db.keys.get ⟨i, h1⟩).orderId = some order.id := by
          rw [← hkeq]
          simpa using hk2.2
        exact hlink this
      rw [if_neg hc] at hrow
      exact hrow

/-- Scenario for the C4 witness: a completed order holding one sold key. -/
def rOrder : Order :=
  ⟨1, "ORDR", "buyer@example.com", 10, OrdStatus.completed, some "TXR",
    some 7, [⟨1, 1, "W11", 1⟩]⟩

def rKey : LicenseKey :=
  ⟨1, 1, "CIPHER-R", KeyStatus.sold, some 1, some 7, none, none, 0⟩

def rDB : DB := ⟨[⟨1, "W11", true⟩], [rOrder], [rKey]⟩

/-- The state committed by the witness refund. -/
def rDB2 : DB := runRefund rDB "ORDR" none true

/-- Witness for C4: the concrete full refund commits and keeps the key
table's size. -/
theorem refund_correct_witness : rDB2.keys.length = rDB.keys.length := by
  obtain ⟨db2, hok, _, _, hlen, _⟩ :=
    refund_correct.2.2 rDB "ORDR" none rOrder (by decide)
      (Or.inl rfl) (by decide) (by decide)
  have h2 : rDB2 = db2 := by
    simp [rDB2, runRefund, hok]
  rw [h2]
  exact hlen

/-! ### Claim C5 -/

/-- Two available keys of the same product with the same createdAt, stored
in the order [id 2, id 1]. -/
def tieKeys : List LicenseKey :=
  [⟨2, 1, "K2", KeyStatus.available, none, none, none, none, 5⟩,
   ⟨1, 1, "K1", KeyStatus.available, none, none, none, none, 5⟩]

/-- C5 counterexample: the code orders only by createdAt (no id tie-break),
so on a table where two available keys share a createdAt the selection
follows the table's row order, not the (createdAt, id) order the claim
states: it picks id 2 where the claimed order picks id 1. -/
theorem selection_no_id_tiebreak :
    (selectKeys tieKeys 1 1).map (fun k => k.id) = [2] ∧
    (specSelectKeys tieKeys 1 1).map (fun k => k.id) = [1] ∧
    selectKeys tieKeys 1 1 ≠ specSelectKeys tieKeys 1 1 := by decide

/-- C5 amended: for every product state with at least `quantity` available
keys, the selection returns exactly `quantity` keys, every selected key is
an available key of the product, and allocation is FIFO: every selected
key's createdAt is at most that of every available key of the product left
unselected.  The relative order of keys sharing a createdAt is not fixed by
the code (the query orders by createdAt only), so the selected set is
determined only up to such ties. -/
theorem fifo_selection :
    ∀ (keys : List LicenseKey) (pid q : Nat),
      q ≤ availableCount keys pid →
      (selectKeys keys pid q).length = q ∧
      (∀ k ∈ selectKeys keys pid q,
        k ∈ keys ∧ k.productId = pid ∧ k.status = KeyStatus.available) ∧
      (∀ k ∈ selectKeys keys pid q, ∀ k2 ∈ keys,
        k2.productId = pid → k2.status = KeyStatus.available →
        k2 ∉ selectKeys keys pid q → k.createdAt ≤ k2.createdAt) := by
  intro keys pid q hq
  refine ⟨?_, ?_, ?_⟩
  · rw [length_selectKeys]
    omega
  · intro k hk
    exact mem_selectKeys keys pid q k hk
  · intro k hk k2 hk2 hpid hst hnot
    simp only [selectKeys] at hk hnot
    have hsorted : List.Sorted byCreatedAt
        ((keys.filter fun k => k.productId == pid
          && k.status == KeyStatus.available).insertionSort byCreatedAt) :=
      List.sorted_insertionSort byCreatedAt _
    have hk2s : k2 ∈ (keys.filter fun k => k.productId == pid
        && k.status == KeyStatus.available).insertionSort byCreatedAt :=
      (List.perm_insertionSort byCreatedAt _).mem_iff.mpr
        (List.mem_filter.mpr ⟨hk2, by simp [hpid, hst]⟩)
    have hk2drop : k2 ∈ ((keys.filter fun k => k.productId == pid
        && k.status == KeyStatus.available).insertionSort
          byCreatedAt).drop q := by
      have hsplit := List.take_append_drop q
        ((keys.filter fun k => k.productId == pid
          && k.status == KeyStatus.available).insertionSort byCreatedAt)
      rcases List.mem_append.mp (hsplit ▸ hk2s) with h | h
      · exact absurd h hnot
      · exact h
    have hpw : List.Pairwise byCreatedAt
        ((((keys.filter fun k => k.productId == pid
          && k.status == KeyStatus.available).insertionSort
            byCreatedAt).take q) ++
         (((keys.filter fun k => k.productId == pid
          && k.status == KeyStatus.available).insertionSort
            byCreatedAt).drop q)) := by
      rw [List.take_append_drop]
      exact hsorted
    exact (List.pairwise_append.mp hpw).2.2 k hk k2 hk2drop

/-- Witness for the C5 amended theorem on the concrete one-key scenario. -/
theorem fifo_selection_witness : (selectKeys wDB.keys 1 1).length = 1 :=
  (fifo_selection wDB.keys 1 1 (by decide)).1

/-! ### Claim C6 -/

/-- Scenario refuting C6: a completed order whose single key was sold to it
(orderId stamped by allocation). -/
def c6Order : Order :=
  ⟨1, "ORD6", "buyer@example.com", 10, OrdStatus.completed, some "TX6",
    some 7, [⟨1, 1, "W11", 1⟩]⟩

def c6Key : LicenseKey :=
  ⟨1, 1, "CIPHER-6", KeyStatus.sold, some 1, some 7, none, none, 0⟩

def c6DB : DB := ⟨[⟨1, "W11", true⟩], [c6Order], [c6Key]⟩

/-- C6 (code bug): revoking the sold key leaves it 'revoked' and still
linked to the order; a subsequent refund of that order flips the revoked
key back to 'available' — the refund's key-release update filters only on
id, not on status, so 'revoked' is not terminal under refund. -/
theorem revoked_key_resurrected_by_refund :
    (revokeKey c6DB 1 none 8).map
      (fun db1 => db1.keys.map fun k => (k.id, k.status)) =
      Except.ok [(1, KeyStatus.revoked)] ∧
    ((revokeKey c6DB 1 none 8).map (fun db1 =>
      (refundOrder db1 "ORD6" none true).map (fun db2 =>
        db2.keys.map fun k => (k.id, k.status)))) =
      Except.ok (Except.ok [(1, KeyStatus.available)]) := by decide

/-! ### Claim C7 -/

/-- Scenario for C7: one product, no orders, empty key table. -/
def c7DB : DB := ⟨[⟨1, "W11", true⟩], [], []⟩

/-- C7 (code bug): the bulk-import handler stores the incoming plaintext
string verbatim in `keyValueEncrypted` (it never calls `encrypt`), and no
well-formed AEAD decryption can recover a key from that stored value at
delivery time: `decrypt` fails on it for every keystream and tag function,
because the stored bytes are not an iv ++ ciphertext ++ tag frame. -/
theorem bulk_import_stores_plaintext :
    (bulkImport c7DB 1 ["KEY-A"] 10 3).map
      (fun r => r.1.keys.map fun k => (k.keyValueEncrypted, k.status)) =
      Except.ok [("KEY-A", KeyStatus.available)] ∧
    ∀ ks tagF, WfTag tagF → decryptBytes ks tagF (strBytes "KEY-A") = none := by
  constructor
  · decide
  · intro ks tagF hw
    have h5 : (strBytes "KEY-A").length = 5 := by decide
    have hneq : ¬ (tagF ((strBytes "KEY-A").take ivLength)
        (((strBytes "KEY-A").take
          ((strBytes "KEY-A").length - tagLength)).drop ivLength) =
        (strBytes "KEY-A").drop ((strBytes "KEY-A").length - tagLength)) := by
      intro hEq
      have hlen := congrArg List.length hEq
      rw [hw, List.length_drop, h5] at hlen
      simp [tagLength] at hlen
    simp only [decryptBytes]
    rw [if_neg hneq]

/-- Witness for C7: a concrete well-formed tag function rejects the stored
plaintext at delivery. -/
theorem bulk_import_stores_plaintext_witness :
    decryptBytes (fun _ n => List.replicate n 0)
      (fun _ _ => List.replicate 16 0) (strBytes "KEY-A") = none :=
  bulk_import_stores_plaintext.2 (fun _ n => List.replicate n 0)
    (fun _ _ => List.replicate 16 0) (fun _ _ => by simp [tagLength])

/-! ### Claim C8 -/

/-- XORing twice with the same keystream restores the plaintext. -/
theorem xorBytes_xorBytes_cancel :
    ∀ (pt s : List Nat), s.length = pt.length →
      xorBytes (xorBytes pt s) s = pt := by
  intro pt
  induction pt with
  | nil =>
    intro s h
    cases s with
    | nil => rfl
    | cons y ys => simp at h
  | cons x xs ih =>
    intro s h
    cases s with
    | nil => simp at h
    | cons y ys =>
      simp only [xorBytes, List.zipWith_cons_cons] at ih ⊢
      rw [Nat.xor_cancel_right y x]
      rw [List.length_cons, List.length_cons, Nat.succ_inj] at h
      rw [ih ys h]

/-- C8: for every plaintext and well-formed keystream/tag primitives,
decrypt(encrypt(pt)) recovers pt exactly; and two encryptions of the same
plaintext under distinct fresh nonces produce different ciphertexts,
because the nonce is embedded as the first 16 bytes of the output. -/
theorem encryption_roundtrip :
    ∀ (ks : List Nat → Nat → List Nat)
      (tagF : List Nat → List Nat → List Nat) (iv iv2 pt : List Nat),
      WfKeystream ks → WfTag tagF →
      iv.length = ivLength → iv2.length = ivLength →
      decryptBytes ks tagF (encryptBytes ks tagF iv pt) = some pt ∧
      (iv ≠ iv2 →
        encryptBytes ks tagF iv pt ≠ encryptBytes ks tagF iv2 pt) := by
  intro ks tagF iv iv2 pt hks htag hiv hiv2
  have hct : (xorBytes pt (ks iv pt.length)).length = pt.length := by
    simp [xorBytes, hks iv pt.length]
  constructor
  · have hivtake : ((iv ++ xorBytes pt (ks iv pt.length) ++
        tagF iv (xorBytes pt (ks iv pt.length))).take ivLength) = iv := by
      rw [List.append_assoc]
      exact List.take_left' hiv
    have hn : (iv ++ xorBytes pt (ks iv pt.length) ++
        tagF iv (xorBytes pt (ks iv pt.length))).length - tagLength =
        (iv ++ xorBytes pt (ks iv pt.length)).length := by
      simp only [List.length_append, hiv, hct,
        htag iv (xorBytes pt (ks iv pt.length))]
      omega
    have htake2 : ((iv ++ xorBytes pt (ks iv pt.length) ++
        tagF iv (xorBytes pt (ks iv pt.length))).take
          ((iv ++ xorBytes pt (ks iv pt.length)).length)) =
        iv ++ xorBytes pt (ks iv pt.length) :=
      List.take_left _ _
    have hdrop2 : (iv ++ xorBytes pt (ks iv pt.length)).drop ivLength =
        xorBytes pt (ks iv pt.length) :=
      List.drop_left' hiv
    have hdroptag : ((iv ++ xorBytes pt (ks iv pt.length) ++
        tagF iv (xorBytes pt (ks iv pt.length))).drop
          ((iv ++ xorBytes pt (ks iv pt.length)).length)) =
        tagF iv (xorBytes pt (ks iv pt.length)) :=
      List.drop_left _ _
    simp only [encryptBytes, decryptBytes]
    rw [hn, hivtake, htake2, hdrop2, hdroptag]
    rw [if_pos rfl, hct]
    rw [xorBytes_xorBytes_cancel pt (ks iv pt.length) (hks iv pt.length)]
  · intro hne hEq
    have h1 := congrArg (fun l => List.take ivLength l) hEq
    simp only [encryptBytes] at h1
    rw [List.append_assoc, List.append_assoc] at h1
    rw [List.take_left' hiv, List.take_left' hiv2] at h1
    exact hne h1

/-- Witness for C8 at a concrete keystream, tag function, nonce and
plaintext. -/
theorem encryption_roundtrip_witness :
    decryptBytes (fun _ n => List.replicate n 0)
      (fun _ _ => List.replicate 16 0)
      (encryptBytes (fun _ n => List.replicate n 0)
        (fun _ _ => List.replicate 16 0) (List.replicate 16 0) [7]) =
      some [7] :=
  (encryption_roundtrip (fun _ n => List.replicate n 0)
    (fun _ _ => List.replicate 16 0) (List.replicate 16 0)
    (1 :: List.replicate 15 0) [7]
    (fun _ n => by simp) (fun _ _ => by simp [tagLength])
    (by decide) (by decide)).1

/-! ### Claim C9 -/

/-- Event classifier for the temporal property. -/
def eventIsEmail : Event → Bool
  | Event.emailAttempt _ => true
  | Event.commitTx => false

/-- The claim's temporal property over one transaction's event trace: every
email attempt occurs strictly after the commit. -/
def EmailAfterCommit (evs : List Event) : Prop :=
  ∀ i j (hi : i < evs.length) (hj : j < evs.length),
    eventIsEmail (evs.get ⟨i, hi⟩) = true →
    evs.get ⟨j, hj⟩ = Event.commitTx → j < i

/-- C9 counterexample: on the concrete successful callback the trace is
[emailAttempt, commitTx] — the email is attempted inside the transaction,
before the commit, so the claim's 'email only after commit' fails. -/
theorem email_sent_before_commit :
    (handlePaymentCallback wDB wCb 7 true).map (fun r => r.2.2) =
      Except.ok [Event.emailAttempt true, Event.commitTx] ∧
    ¬ EmailAfterCommit [Event.emailAttempt true, Event.commitTx] := by
  constructor
  · decide
  · intro h
    have := h 0 1 (by decide) (by decide) rfl rfl
    omega

/-- C9 amended: the email attempt lives inside the transaction (before
commit), but its failure is caught and swallowed, so the committed state
and the returned result are identical whether the email succeeds or fails:
a failing email never rolls back the financial transaction, and the order
still completes with its keys allocated exactly as on email success. -/
theorem email_failure_never_rolls_back :
    ∀ (db : DB) (cb : Callback) (now : Nat),
      (handlePaymentCallback db cb now true).map (fun r => (r.1, r.2.1)) =
      (handlePaymentCallback db cb now false).map (fun r => (r.1, r.2.1)) := by
  intro db cb now
  cases hf : findOrder db cb.orderNo with
  | none => simp [handlePaymentCallback, hf]
  | some order =>
    by_cases hne : order.status ≠ OrdStatus.pending
    · simp [handlePaymentCallback, hf, hne]
    · rw [not_not] at hne
      cases hamt : amountMismatch order.totalAmount cb.amount with
      | true => simp [handlePaymentCallback, hf, hne, hamt]
      | false =>
        by_cases hs : cb.status = "success"
        · cases hc : allocItems db.keys order.orderItems order.id now with
          | error e =>
            simp [handlePaymentCallback, completeOrder, Except.map, hf, hne,
              hamt, hs, hc]
          | ok keys2 =>
            simp [handlePaymentCallback, completeOrder, Except.map, hf, hne,
              hamt, hs, hc]
        · simp [handlePaymentCallback, hf, hne, hamt, hs]

/-! ### Claim C10 -/

/-- An alert state change for another product does not affect a product's
cooldown check. -/
theorem hasRecentAlert_markAlertSent_ne (st : AlertState)
    (now now2 pid q : Nat) (h : q ≠ pid) :
    hasRecentAlert (markAlertSent st now pid) now2 q =
      hasRecentAlert st now2 q := by
  simp [hasRecentAlert, markAlertSent, h]

/-- While a product's cooldown flag is observed, the alert loop sends it
nothing and leaves its flag untouched. -/
theorem alertLoop_suppressed (ps : List Product) :
    ∀ (st : AlertState) (now : Nat) (sendOk : Nat → Bool) (pid : Nat),
    hasRecentAlert st now pid = true →
    (alertLoop st now sendOk ps).2.count pid = 0 ∧
    (alertLoop st now sendOk ps).1 pid = st pid := by
  induction ps with
  | nil =>
    intro st now f pid h
    simp [alertLoop]
  | cons p rest ih =>
    intro st now f pid h
    by_cases hp : hasRecentAlert st now p.id
    · simp only [alertLoop, hp, if_true]
      exact ih st now f pid h
    · have hps : hasRecentAlert st now p.id = false := by
        simp [hp]
      by_cases hsend : f p.id
      · have hne : p.id ≠ pid := by
          intro he
          rw [he, h] at hps
          cases hps
        have h2 : hasRecentAlert (markAlertSent st now p.id) now pid =
            true := by
          rw [hasRecentAlert_markAlertSent_ne st now now p.id pid
            (Ne.symm hne)]
          exact h
        obtain ⟨hcount, hst⟩ := ih (markAlertSent st now p.id) now f pid h2
        simp only [alertLoop, hps, Bool.false_eq_true, if_false, ite_false,
          hsend, if_true]
        refine ⟨?_, ?_⟩
        · simp [List.count_cons, hcount, hne]
        · rw [hst]
          simp [markAlertSent, Ne.symm hne]
      · simp only [alertLoop, hps, Bool.false_eq_true, if_false, ite_false,
          hsend]
        exact ih st now f pid h

/-- Any product id appearing in the loop's alert list has its cooldown flag
set to now + cooldown afterwards. -/
theorem alertLoop_mem_sets_cooldown (ps : List Product) :
    ∀ (st : AlertState) (now : Nat) (sendOk : Nat → Bool) (pid : Nat),
    pid ∈ (alertLoop st now sendOk ps).2 →
    (alertLoop st now sendOk ps).1 pid = some (now + alertCooldown) := by
  induction ps with
  | nil =>
    intro st now f pid h
    simp [alertLoop] at h
  | cons p rest ih =>
    intro st now f pid h
    by_cases hp : hasRecentAlert st now p.id
    · simp only [alertLoop, hp, if_true] at h ⊢
      exact ih st now f pid h
    · have hps : hasRecentAlert st now p.id = false := by
        simp [hp]
      by_cases hsend : f p.id
      · simp only [alertLoop, hps, Bool.false_eq_true, if_false, ite_false,
          hsend, if_true] at h ⊢
        rcases List.mem_cons.mp h with he | hmem
        · subst he
          have hrec : hasRecentAlert (markAlertSent st now p.id) now p.id =
              true := by
            simp [hasRecentAlert, markAlertSent, alertCooldown]
          obtain ⟨_, hst⟩ := alertLoop_suppressed rest
            (markAlertSent st now p.id) now f p.id hrec
          rw [hst]
          simp [markAlertSent]
        · exact ih (markAlertSent st now p.id) now f pid hmem
      · simp only [alertLoop, hps, Bool.false_eq_true, if_false, ite_false,
          hsend] at h ⊢
        exact ih st now f pid h

/-- Once a product qualifies with no active cooldown and its send succeeds,
one loop pass alerts it exactly once and sets the cooldown. -/
theorem alertLoop_fires (ps : List Product) :
    ∀ (st : AlertState) (now : Nat) (sendOk : Nat → Bool) (pid : Nat),
    hasRecentAlert st now pid = false →
    sendOk pid = true →
    (∃ p ∈ ps, p.id = pid) →
    (alertLoop st now sendOk ps).2.count pid = 1 ∧
    (alertLoop st now sendOk ps).1 pid = some (now + alertCooldown) := by
  induction ps with
  | nil =>
    rintro st now f pid h hf ⟨p, hp, _⟩
    cases hp
  | cons p rest ih =>
    rintro st now f pid h hf ⟨w, hw, hwid⟩
    by_cases hp : hasRecentAlert st now p.id
    · have hne : p.id ≠ pid := by
        intro he
        rw [he, h] at hp
        cases hp
      have hwrest : w ∈ rest := by
        rcases List.mem_cons.mp hw with he | he
        · subst he
          exact absurd hwid hne
        · exact he
      simp only [alertLoop, hp, if_true]
      exact ih st now f pid h hf ⟨w, hwrest, hwid⟩
    · have hps : hasRecentAlert st now p.id = false := by
        simp [hp]
      by_cases hpid : p.id = pid
      · subst hpid
        simp only [alertLoop, hps, Bool.false_eq_true, if_false, ite_false,
          hf, if_true]
        have hrec : hasRecentAlert (markAlertSent st now p.id) now p.id =
            true := by
          simp [hasRecentAlert, markAlertSent, alertCooldown]
        obtain ⟨hcount, hst⟩ := alertLoop_suppressed rest
          (markAlertSent st now p.id) now f p.id hrec
        refine ⟨?_, ?_⟩
        · simp [List.count_cons, hcount]
        · rw [hst]
          simp [markAlertSent]
      · have hwrest : w ∈ rest := by
          rcases List.mem_cons.mp hw with he | he
          · subst he
            exact absurd hwid hpid
          · exact he
        by_cases hsend : f p.id
        · have h2 : hasRecentAlert (markAlertSent st now p.id) now pid =
              false := by
            rw [hasRecentAlert_markAlertSent_ne st now now p.id pid
              (Ne.symm hpid)]
            exact h
          obtain ⟨hcount, hst⟩ := ih (markAlertSent st now p.id) now f pid
            h2 hf ⟨w, hwrest, hwid⟩
          simp only [alertLoop, hps, Bool.false_eq_true, if_false,
            ite_false, hsend, if_true]
          refine ⟨?_, ?_⟩
          · simp [List.count_cons, hcount, hpid]
          · rw [hst]
        · simp only [alertLoop, hps, Bool.false_eq_true, if_false,
            ite_false, hsend]
          exact ih st now f pid h hf ⟨w, hwrest, hwid⟩

/-- One inventory check run, as seen by a sequence of later checks. -/
structure CheckInput where
  db : DB
  now : Nat
  sendOk : Nat → Bool
  threshold : Nat

/-- A sequence of `checkAndAlert` runs threading the Redis state. -/
def checkSeq (st : AlertState) : List CheckInput → AlertState × List Nat
  | [] => (st, [])
  | c :: cs =>
    let r := checkAndAlert c.db st c.now c.sendOk c.threshold
    let r2 := checkSeq r.1 cs
    (r2.1, r.2 ++ r2.2)

/-- C10: (1) whenever a low-stock alert fires for a product, its cooldown
flag is set to now + 24h; (2) along any sequence of subsequent checks whose
times fall before the product's cooldown expiry, zero further alerts are
sent for it and its flag is untouched, whatever the databases, thresholds
and channels; (3) at the first qualifying check at or after expiry with a
succeeding channel, exactly one more alert fires and a fresh 24h cooldown
is set. -/
theorem cooldown_suppression :
    (∀ (db : DB) (st : AlertState) (now : Nat) (sendOk : Nat → Bool)
      (threshold pid : Nat),
      pid ∈ (checkAndAlert db st now sendOk threshold).2 →
      (checkAndAlert db st now sendOk threshold).1 pid =
        some (now + alertCooldown)) ∧
    (∀ (st : AlertState) (pid e : Nat) (cs : List CheckInput),
      st pid = some e → (∀ c ∈ cs, c.now < e) →
      (checkSeq st cs).2.count pid = 0 ∧ (checkSeq st cs).1 pid = st pid) ∧
    (∀ (db : DB) (st : AlertState) (now : Nat) (sendOk : Nat → Bool)
      (threshold pid e : Nat),
      st pid = some e → e ≤ now →
      (∃ p ∈ lowStockProducts db threshold, p.id = pid) →
      sendOk pid = true →
      (checkAndAlert db st now sendOk threshold).2.count pid = 1 ∧
      (checkAndAlert db st now sendOk threshold).1 pid =
        some (now + alertCooldown)) := by
  refine ⟨?_, ?_, ?_⟩
  · intro db st now sendOk threshold pid h
    exact alertLoop_mem_sets_cooldown (lowStockProducts db threshold) st now
      sendOk pid h
  · intro st pid e cs
    induction cs generalizing st with
    | nil =>
      intro h hall
      simp [checkSeq]
    | cons c rest ih =>
      intro h hall
      have hrec : hasRecentAlert st c.now pid = true := by
        simp only [hasRecentAlert, h]
        simp [hall c (List.mem_cons_self c rest)]
      obtain ⟨hc1, hc2⟩ := alertLoop_suppressed
        (lowStockProducts c.db c.threshold) st c.now c.sendOk pid hrec
      have hst2 : (checkAndAlert c.db st c.now c.sendOk c.threshold).1 pid =
          some e := by
        rw [checkAndAlert, hc2, h]
      obtain ⟨hr1, hr2⟩ := ih
        ((checkAndAlert c.db st c.now c.sendOk c.threshold).1) hst2
        (fun d hd => hall d (List.mem_cons_of_mem c hd))
      refine ⟨?_, ?_⟩
      · simp only [checkSeq, List.count_append]
        rw [hr1]
        have : (checkAndAlert c.db st c.now c.sendOk c.threshold).2.count
            pid = 0 := hc1
        omega
      · simp only [checkSeq]
        rw [hr2, hst2, h]
  · intro db st now sendOk threshold pid e h he hmem hsend
    have hrec : hasRecentAlert st now pid = false := by
      simp only [hasRecentAlert, h]
      simp
      omega
    exact alertLoop_fires (lowStockProducts db threshold) st now sendOk pid
      hrec hsend hmem

/-- Witness for C10 part (3): with product 1 out of stock, an expired
cooldown flag and a succeeding channel, the check fires exactly once. -/
theorem cooldown_suppression_witness :
    (checkAndAlert c7DB (fun q => if q = 1 then some 50 else none) 100
      (fun _ => true) 10).2.count 1 = 1 :=
  (cooldown_suppression.2.2 c7DB (fun q => if q = 1 then some 50 else none)
    100 (fun _ => true) 10 1 50 rfl (by decide)
    ⟨⟨1, "W11", true⟩, by decide, rfl⟩ rfl).1

end ApiStore
